import Mathlib

/-!
Verification of the scikufu parallel batch runner and of the argument
construction of its OpenAI client wrapper.

The batch runner (`run_in_parallel` / `run_async_in_parallel`) is specified and
tested by the repository, but its implementation module is not present in the
source snapshot (only its tests and its caller `openai.py` are); it is modelled
here from the specification, with the repository tests fixing the behaviour at
the points where the specification text is ambiguous.  The `Client.chat_completion`
argument construction is embedded from `src/src/scikufu/parallel/openai.py`.
-/

namespace Scikufu

variable {ε α A μ : Type}

/-- Modelled from the spec: a task's callable unit of work (the implementation
module of the runner is absent from the snapshot).  `id` is the stable identity
of the callable, used both for the cache fingerprint and to count invocations;
`behavior a n` is the outcome of invoking the callable on arguments `a` when it
has already been invoked `n` times before, so callables whose result depends on
an invocation counter (as in the repository retry tests) are representable. -/
structure PyCallable (ε α A : Type) where
  id : Nat
  behavior : A → Nat → Except ε α

/-- Modelled from the spec: the error taxonomy of a batch call.  `task e`
carries the original task error `e` verbatim — the spec requires the final
error to be re-raised unwrapped, preserving its identity. -/
inductive PyError (ε : Type) where
  | inputShape (nTasks nArgs : Nat)
  | backendConfig
  | task (e : ε)
deriving DecidableEq

/-- Modelled from the spec: the observable state threaded through batch runs —
the content of the configured cache directory (fingerprint-keyed entries, never
evicted) and the per-callable invocation counters observed by the tests. -/
structure RunState (α : Type) where
  cache : List (Nat × α)
  calls : Nat → Nat

/-- Modelled from the spec: the Retry Controller.  `retryLoop b n r` invokes
the thunk `b` (already bound to one task's callable and arguments) starting
from prior invocation count `n` with `r` retries left: at most `r + 1` total
attempts, stopping at the first success, and returning the final outcome
together with the total invocation count after the task.  On final failure the
error of the last attempt is returned verbatim. -/
def retryLoop (b : Nat → Except ε α) : Nat → Nat → Except ε α × Nat
  | n, 0 => (b n, n + 1)
  | n, r + 1 =>
    match b n with
    | .ok v => (.ok v, n + 1)
    | .error _ => retryLoop b (n + 1) r

/-- Modelled from the spec: the Task Descriptor Builder.  A single callable is
broadcast across all argument tuples; otherwise the callables sequence and the
argument-tuples sequence must have equal length, and a mismatch is the fatal
input-shape error carrying the two lengths.  The repository test
`test_argument_mismatch_error` fixes that two callables with one argument tuple
is an error — a single argument tuple is not broadcast across callables. -/
def buildDescriptors : List (PyCallable ε α A) → List A → Except (Nat × Nat) (List (PyCallable ε α A × A))
  | [f], args_ => .ok (args_.map (fun a => (f, a)))
  | fs, args_ =>
    if fs.length = args_.length then .ok (fs.zip args_)
    else .error (fs.length, args_.length)

/-- Modelled from the spec: Cache Store lookup, `lookup(fingerprint) -> value | miss`. -/
def cacheLookup (cache : List (Nat × α)) (key : Nat) : Option α :=
  (cache.find? (fun p => p.1 == key)).map Prod.snd

/-- Modelled from the spec: execution of a single task descriptor.  With
caching enabled, a fingerprint hit returns the stored value without invoking
the callable at all; a miss runs the Retry Controller and writes the value
through to the cache on success (write-through happens after population and
before the value reaches the collector).  Without a cache directory every
lookup misses and nothing is stored.  The callable's invocation counter is
advanced to the count reported by the Retry Controller. -/
def runOne (fp : Nat → A → Nat) (cacheOn : Bool) (retries : Nat) (st : RunState α)
    (t : PyCallable ε α A × A) : Except ε α × RunState α :=
  let key := fp t.1.id t.2
  if cacheOn then
    match cacheLookup st.cache key with
    | some v => (.ok v, st)
    | none =>
      match retryLoop (t.1.behavior t.2) (st.calls t.1.id) retries with
      | (.ok v, n) => (.ok v, ⟨(key, v) :: st.cache, Function.update st.calls t.1.id n⟩)
      | (.error e, n) => (.error e, ⟨st.cache, Function.update st.calls t.1.id n⟩)
  else
    match retryLoop (t.1.behavior t.2) (st.calls t.1.id) retries with
    | (res, n) => (res, ⟨st.cache, Function.update st.calls t.1.id n⟩)

/-- Modelled from the spec: drives every descriptor to a terminal outcome,
stopping at the first task that exhausts its retries (the contract is
fail-the-batch, not best-effort).  Returns the per-task results in submission
order together with the final cache and counter state. -/
def runAll (fp : Nat → A → Nat) (cacheOn : Bool) (retries : Nat) :
    RunState α → List (PyCallable ε α A × A) → Except ε (List α) × RunState α
  | st, [] => (.ok [], st)
  | st, t :: ts =>
    match runOne fp cacheOn retries st t with
    | (.ok v, st') =>
      match runAll fp cacheOn retries st' ts with
      | (.ok vs, st'') => (.ok (v :: vs), st'')
      | (.error e, st'') => (.error e, st'')
    | (.error e, st') => (.error e, st')

/-- Modelled from the spec: the completion stream.  `completionOrder` lists the
submission indices in the order in which the chosen backend completes them (the
backends' nondeterminism made explicit); the stream pairs each completing index
with that task's result. -/
def streamOf (vs : List α) (completionOrder : List Nat) : List (Nat × α) :=
  completionOrder.filterMap (fun j => (vs[j]?).map (fun v => (j, v)))

/-- Modelled from the spec: placing one completed outcome into the result slot
addressed by its submission index. -/
def setSlot (slots : List (Option α)) (p : Nat × α) : List (Option α) :=
  slots.set p.1 (some p.2)

/-- Modelled from the spec: the keep-order side of the Ordered Collector —
outcomes are placed, as they complete, into result slots addressed by index. -/
def placeSlots (n : Nat) (stream : List (Nat × α)) : List (Option α) :=
  stream.foldl setSlot (List.replicate n none)

/-- Modelled from the spec: the Ordered Collector.  With `keep_order = true`
the final value is the filled slot sequence `0..n-1`; with `keep_order = false`
outcomes are appended strictly in completion order. -/
def collect (keep_order : Bool) (n : Nat) (stream : List (Nat × α)) : List α :=
  if keep_order then (placeSlots n stream).filterMap (fun x => x)
  else stream.map Prod.snd

/-- Modelled from the spec: the batch entry point `run_in_parallel` (the
implementation module `src/scikufu/parallel/__init__.py` is absent from the
repository snapshot).  `fp` is the deterministic fingerprint function over the
callable identity and the arguments, `cache_dir` enables the Cache Store when
present, and `completionOrder` makes the backend's completion nondeterminism
explicit.  Shape errors are raised synchronously at batch setup, before any
callable runs; a task error is re-raised verbatim after retries are exhausted. -/
def run_in_parallel (tasks : List (PyCallable ε α A)) (args_ : List A)
    (fp : Nat → A → Nat) (cache_dir : Option Nat) (retries : Nat)
    (keep_order : Bool) (completionOrder : List Nat) (st : RunState α) :
    Except (PyError ε) (List α) × RunState α :=
  match buildDescriptors tasks args_ with
  | .error sh => (.error (.inputShape sh.1 sh.2), st)
  | .ok descs =>
    match runAll fp cache_dir.isSome retries st descs with
    | (.error e, st') => (.error (.task e), st')
    | (.ok vs, st') => (.ok (collect keep_order vs.length (streamOf vs completionOrder)), st')

/-- Modelled from the spec: the cooperative (async) batch entry point
`run_async_in_parallel`.  Setting a thread or process backend selection flag on
this entry point is a caller error that fails fast with an assertion-style
configuration error before any task executes; otherwise the behaviour follows
the common batch contract. -/
def run_async_in_parallel (thread : Bool) (proc : Bool)
    (tasks : List (PyCallable ε α A)) (args_ : List A) (fp : Nat → A → Nat)
    (cache_dir : Option Nat) (retries : Nat) (keep_order : Bool)
    (completionOrder : List Nat) (st : RunState α) :
    Except (PyError ε) (List α) × RunState α :=
  if thread || proc then (.error .backendConfig, st)
  else run_in_parallel tasks args_ fp cache_dir retries keep_order completionOrder st

/-- Stated trigger condition of the specification for the input-shape error,
written from the spec's words for comparison with the modelled builder: the
callables sequence and the argument-tuples sequence both have length greater
than one and their lengths differ. -/
def specShapeErrorTrigger (nTasks nArgs : Nat) : Prop :=
  1 < nTasks ∧ 1 < nArgs ∧ nTasks ≠ nArgs

/-- Embedded from src/src/scikufu/parallel/openai.py: the `model` argument of
`Client.chat_completion` has type `Union[str, Iterable[str]]` — either a single
model name string or an iterable of model name strings. -/
inductive ModelArg where
  | str (s : String)
  | strs (l : List String)

/-- Python's `isinstance(model, Iterable)` check of openai.py line 27: a `str`
is itself an `Iterable` (iterating it yields its characters), and a list of
strings is an `Iterable`. -/
def ModelArg.isIterable : ModelArg → Bool
  | .str _ => true
  | .strs _ => true

/-- Iterating the `model` argument the way Python's `zip` does: a `str` yields
its characters as length-one strings, a list yields its elements. -/
def ModelArg.elements : ModelArg → List String
  | .str s => s.data.map (fun c => String.mk [c])
  | .strs l => l

/-- Embedded from src/src/scikufu/parallel/openai.py line 27:
`models = model if isinstance(model, Iterable) else [model] * len(messages)`.
The `else` branch is dead code, because both forms of `model` satisfy the
`isinstance` check; for a `str` it would have broadcast the whole name, which
is what the dead branch renders (the list case of the dead branch is left as
the list itself, it is unreachable either way). -/
def chatCompletionModels (messages : List μ) (model : ModelArg) : List String :=
  if model.isIterable then model.elements
  else
    match model with
    | .str s => List.replicate messages.length s
    | .strs l => l

/-- Embedded from src/src/scikufu/parallel/openai.py lines 36-39: the `args_`
accumulation loop `for msg, mdl in zip(messages, models): args_.append((msg, mdl))`. -/
def chatCompletionArgs (messages : List μ) (model : ModelArg) : List (μ × String) :=
  messages.zip (chatCompletionModels messages model)

/-- Embedded from src/src/scikufu/parallel/openai.py lines 36-39: the `kwargs_`
accumulation `kwargs_.append(kwargs)` — the same caller `**kwargs` mapping is
appended once per zipped task.  Only the keyword names matter for call binding,
so a mapping is represented by its list of keys. -/
def chatCompletionKwargs (messages : List μ) (model : ModelArg) (kwargKeys : List String) : List (List String) :=
  (messages.zip (chatCompletionModels messages model)).map (fun _ => kwargKeys)

/-- Embedded from src/src/scikufu/parallel/openai.py lines 29-34: the inner
`async def make_task(msg, model)` declares exactly the two parameters `msg` and
`model`. -/
def makeTaskParams : List String := ["msg", "model"]

/-- Embedded from src/src/scikufu/parallel/openai.py lines 29-34: `make_task`
has no `**kwargs` catch-all parameter. -/
def makeTaskHasVarKeyword : Bool := false

/-- Python call binding for an invocation `f(*args, **kw)` where the first
`numPositional` parameters are bound by the positional arguments: a `TypeError`
is raised when a keyword names a parameter already bound positionally (multiple
values for argument), or names no declared parameter while the callee has no
`**kwargs` catch-all (unexpected keyword argument). -/
def callRaisesTypeError (params : List String) (numPositional : Nat)
    (hasVarKeyword : Bool) (kwargKeys : List String) : Bool :=
  kwargKeys.any (fun k => (params.take numPositional).contains k)
    || (!hasVarKeyword && kwargKeys.any (fun k => !(params.contains k)))

/-- Retry Controller on a thunk that fails on every attempt: all `r + 1`
attempts are made and the error is returned verbatim. -/
theorem retryLoop_const_error (b : Nat → Except ε α) (e : ε)
    (hb : ∀ m, b m = .error e) : ∀ (r n : Nat), retryLoop b n r = (.error e, n + r + 1) := by
  intro r
  induction r with
  | zero => intro n; simp [retryLoop, hb n]
  | succ r ih =>
    intro n
    simp only [retryLoop, hb n]
    rw [ih (n + 1)]
    have : n + 1 + r + 1 = n + (r + 1) + 1 := by omega
    rw [this]

/-- Retry Controller on a thunk that succeeds at its first attempt: exactly one
attempt is made, whatever the retry budget. -/
theorem retryLoop_first_ok (b : Nat → Except ε α) (v : α) (n r : Nat)
    (hb : b n = .ok v) : retryLoop b n r = (.ok v, n + 1) := by
  cases r with
  | zero => simp [retryLoop, hb]
  | succ r => simp [retryLoop, hb]

/-- Retry Controller on a thunk that fails on its first `k` attempts and
succeeds on the next one: given a retry budget of at least `k`, exactly `k + 1`
attempts are made and the success value is returned. -/
theorem retryLoop_eventual_ok (b : Nat → Except ε α) :
    ∀ (k n r : Nat) (v : α),
      (∀ m, m < k → ∃ e, b (n + m) = .error e) → b (n + k) = .ok v → k ≤ r →
      retryLoop b n r = (.ok v, n + k + 1) := by
  intro k
  induction k with
  | zero =>
    intro n r v _ hsucc _
    simpa using retryLoop_first_ok b v n r (by simpa using hsucc)
  | succ k ih =>
    intro n r v hfail hsucc hr
    cases r with
    | zero => omega
    | succ r =>
      obtain ⟨e, he⟩ := hfail 0 (Nat.succ_pos k)
      have he' : b n = .error e := by simpa using he
      have hf' : ∀ m, m < k → ∃ e', b (n + 1 + m) = .error e' := by
        intro m hm
        obtain ⟨e', he2⟩ := hfail (m + 1) (Nat.succ_lt_succ hm)
        refine ⟨e', ?_⟩
        have hx : n + 1 + m = n + (m + 1) := by omega
        rw [hx, he2]
      have hs' : b (n + 1 + k) = .ok v := by
        have hx : n + 1 + k = n + (k + 1) := by omega
        rw [hx, hsucc]
      have hrec := ih (n + 1) r v hf' hs' (Nat.le_of_succ_le_succ hr)
      have hstep : retryLoop b n (r + 1) = retryLoop b (n + 1) r := by
        simp [retryLoop, he']
      rw [hstep, hrec]
      have hx : n + 1 + k + 1 = n + (k + 1) + 1 := by omega
      rw [hx]

/-- Claim C2: a callable that raises on every invocation, run in a batch with
`retries = r`, is invoked exactly `r + 1` times, and the batch call raises the
callable's original error, carried verbatim (unwrapped) in the batch error. -/
theorem c2_exhausted_retries_original_error (c : PyCallable ε α A) (a : A) (e : ε)
    (r : Nat) (fp : Nat → A → Nat) (keep_order : Bool) (st : RunState α)
    (hb : ∀ n, c.behavior a n = .error e) :
    (run_in_parallel [c] [a] fp none r keep_order [0] st).1 = .error (.task e) ∧
    ((run_in_parallel [c] [a] fp none r keep_order [0] st).2).calls c.id
      = st.calls c.id + r + 1 := by
  have hretry := retryLoop_const_error (c.behavior a) e hb r (st.calls c.id)
  simp [run_in_parallel, buildDescriptors, runAll, runOne, hretry, Function.update_same]

/-- Concrete always-failing callable used by the C2 witness. -/
def alwaysFailC : PyCallable Nat Nat Nat := ⟨0, fun _ _ => .error 7⟩

/-- Witness for claim C2 at a concrete input: two retries, three invocations,
the original error 7 surfaces. -/
theorem c2_witness :
    (run_in_parallel [alwaysFailC] [5] (fun i a => i + a) none 2 true [0]
        ⟨[], fun _ => 0⟩).1 = .error (.task 7) ∧
    ((run_in_parallel [alwaysFailC] [5] (fun i a => i + a) none 2 true [0]
        ⟨[], fun _ => 0⟩).2).calls alwaysFailC.id = 3 := by
  have h := c2_exhausted_retries_original_error alwaysFailC 5 7 2 (fun i a => i + a)
    true ⟨[], fun _ => 0⟩ (fun _ => rfl)
  exact ⟨h.1, h.2⟩

/-- Claim C4: a callable that raises on its first `k` invocations and succeeds
on invocation `k + 1`, run in a batch with `retries ≥ k`, yields the success
value in the result list and is invoked exactly `k + 1` times in total. -/
theorem c4_retry_convergence (c : PyCallable ε α A) (a : A) (k r : Nat) (v : α)
    (fp : Nat → A → Nat) (keep_order : Bool)
    (hfail : ∀ n, n < k → ∃ e, c.behavior a n = .error e)
    (hsucc : c.behavior a k = .ok v) (hr : k ≤ r) :
    (run_in_parallel [c] [a] fp none r keep_order [0] ⟨[], fun _ => 0⟩).1 = .ok [v] ∧
    ((run_in_parallel [c] [a] fp none r keep_order [0] ⟨[], fun _ => 0⟩).2).calls c.id = k + 1 := by
  have hretry := retryLoop_eventual_ok (c.behavior a) k 0 r v
    (by simpa using hfail) (by simpa using hsucc) hr
  constructor
  · cases keep_order <;>
      simp [run_in_parallel, buildDescriptors, runAll, runOne, hretry, collect,
        streamOf, placeSlots, setSlot]
  · simp [run_in_parallel, buildDescriptors, runAll, runOne, hretry, Function.update_same]

/-- Concrete callable for the C4 witness: fails on its first two invocations
and succeeds with value 100 on the third. -/
def flakyC : PyCallable Nat Nat Nat := ⟨1, fun _ n => if n < 2 then .error 1 else .ok 100⟩

/-- Witness for claim C4 at a concrete input: two initial failures, retry
budget three, success value 100 returned after exactly three invocations. -/
theorem c4_witness :
    (run_in_parallel [flakyC] [0] (fun i a => i + a) none 3 true [0] ⟨[], fun _ => 0⟩).1
      = .ok [100] ∧
    ((run_in_parallel [flakyC] [0] (fun i a => i + a) none 3 true [0]
        ⟨[], fun _ => 0⟩).2).calls flakyC.id = 3 := by
  have h := c4_retry_convergence flakyC 0 2 3 100 (fun i a => i + a) true
    (fun n hn => ⟨1, by simp [flakyC, hn]⟩) (by simp [flakyC]) (by omega)
  exact ⟨h.1, h.2⟩

/-- Claim C6: the cooperative (async) batch entry point invoked with a thread
or process backend selection flag set fails fast with the assertion-style
configuration error before any task executes — the returned state is the input
state unchanged, so no task callable was invoked and no counter moved. -/
theorem c6_async_rejects_backend_flags (thread : Bool) (proc : Bool)
    (tasks : List (PyCallable ε α A)) (args_ : List A) (fp : Nat → A → Nat)
    (cache_dir : Option Nat) (retries : Nat) (keep_order : Bool)
    (completionOrder : List Nat) (st : RunState α)
    (h : (thread || proc) = true) :
    run_async_in_parallel thread proc tasks args_ fp cache_dir retries keep_order
        completionOrder st
      = (.error .backendConfig, st) := by
  simp only [run_async_in_parallel]
  rw [h]
  simp

/-- Witness for claim C6 at a concrete input: the thread flag set on the async
entry point yields the configuration error with the state untouched. -/
theorem c6_witness :
    run_async_in_parallel true false [alwaysFailC] [5] (fun i a => i + a) none 0 true [0]
        ⟨[], fun _ => 0⟩
      = (.error .backendConfig, ⟨[], fun _ => 0⟩) :=
  c6_async_rejects_backend_flags true false [alwaysFailC] [5] (fun i a => i + a)
    none 0 true [0] ⟨[], fun _ => 0⟩ rfl

/-- Slot placement preserves the number of slots. -/
theorem foldl_setSlot_length (stream : List (Nat × α)) :
    ∀ (init : List (Option α)), (stream.foldl setSlot init).length = init.length := by
  induction stream with
  | nil => intro init; rfl
  | cons p rest ih =>
    intro init
    rw [List.foldl_cons, ih]
    simp [setSlot]

/-- A slot whose index never occurs in the stream is left untouched. -/
theorem foldl_setSlot_not_mem (stream : List (Nat × α)) :
    ∀ (init : List (Option α)) (i : Nat), i ∉ stream.map Prod.fst →
      (stream.foldl setSlot init)[i]? = init[i]? := by
  induction stream with
  | nil => intro init i _; rfl
  | cons p rest ih =>
    intro init i hi
    simp only [List.map_cons, List.mem_cons, not_or] at hi
    rw [List.foldl_cons, ih _ i hi.2]
    simp only [setSlot]
    exact List.getElem?_set_ne (fun hpe => hi.1 hpe.symm)

/-- With pairwise distinct stream indices, the slot addressed by a stream
member's index ends up holding that member's value. -/
theorem foldl_setSlot_mem (stream : List (Nat × α)) :
    ∀ (init : List (Option α)) (i : Nat) (v : α),
      (stream.map Prod.fst).Nodup → (i, v) ∈ stream → i < init.length →
      (stream.foldl setSlot init)[i]? = some (some v) := by
  induction stream with
  | nil =>
    intro _ _ _ _ hmem _
    cases hmem
  | cons p rest ih =>
    intro init i v hnd hmem hlen
    rw [List.map_cons] at hnd
    have hnd' := List.nodup_cons.mp hnd
    rw [List.foldl_cons]
    rcases List.mem_cons.mp hmem with heq | hmem'
    · have hni : i ∉ rest.map Prod.fst := by
        have hp := hnd'.1
        rw [← heq] at hp
        exact hp
      rw [foldl_setSlot_not_mem rest _ i hni, ← heq]
      simp only [setSlot]
      exact List.getElem?_set_eq_of_lt (some v) hlen
    · apply ih (setSlot init p) i v hnd'.2 hmem'
      simpa [setSlot] using hlen

/-- When every completing index is in range, the stream's index trace is
exactly the completion order. -/
theorem streamOf_map_fst (vs : List α) :
    ∀ (co : List Nat), (∀ j ∈ co, j < vs.length) →
      (streamOf vs co).map Prod.fst = co := by
  intro co
  induction co with
  | nil => intro _; rfl
  | cons j co ih =>
    intro h
    have hj : j < vs.length := h j (by simp)
    simp only [streamOf, List.filterMap_cons, List.getElem?_eq_getElem hj, Option.map_some']
    simpa [streamOf] using ih (fun x hx => h x (by simp [hx]))

/-- Each in-range completing index contributes its task's value to the stream. -/
theorem streamOf_mem (vs : List α) (i : Nat) (v : α) :
    ∀ (co : List Nat), i ∈ co → vs[i]? = some v → (i, v) ∈ streamOf vs co := by
  intro co
  induction co with
  | nil =>
    intro h _
    cases h
  | cons j co ih =>
    intro hmem hv
    rcases List.mem_cons.mp hmem with rfl | hmem'
    · simp [streamOf, List.filterMap_cons, hv]
    · have hrec := ih hmem' hv
      simp only [streamOf, List.filterMap_cons]
      cases hjv : vs[j]? with
      | none => simpa [streamOf] using hrec
      | some w =>
        simp only [Option.map_some']
        exact List.mem_cons_of_mem _ (by simpa [streamOf] using hrec)

/-- Ordered Collector, keep-order side: when the completion order is a
permutation of the submission indices, the filled slot sequence is exactly the
submission-order result list, whatever the completion order was. -/
theorem collect_keep_order_eq (vs : List α) (co : List Nat)
    (hperm : co.Perm (List.range vs.length)) :
    collect true vs.length (streamOf vs co) = vs := by
  have hmemr : ∀ j ∈ co, j < vs.length := fun j hj =>
    List.mem_range.mp (hperm.mem_iff.mp hj)
  have hnd : co.Nodup := hperm.nodup_iff.mpr (List.nodup_range _)
  have hfst : (streamOf vs co).map Prod.fst = co := streamOf_map_fst vs co hmemr
  have hslots : placeSlots vs.length (streamOf vs co) = vs.map some := by
    apply List.ext_getElem?
    intro i
    by_cases hi : i < vs.length
    · have himem : i ∈ co := hperm.mem_iff.mpr (List.mem_range.mpr hi)
      have hm : (i, vs[i]) ∈ streamOf vs co :=
        streamOf_mem vs i vs[i] co himem (List.getElem?_eq_getElem hi)
      have hndf : ((streamOf vs co).map Prod.fst).Nodup := by
        rw [hfst]
        exact hnd
      have hset := foldl_setSlot_mem (streamOf vs co) (List.replicate vs.length none)
        i vs[i] hndf hm (by simpa using hi)
      rw [placeSlots, hset, List.getElem?_map, List.getElem?_eq_getElem hi]
      rfl
    · have h1 : vs.length ≤ i := Nat.le_of_not_lt hi
      have hlen : ((streamOf vs co).foldl setSlot (List.replicate vs.length none)).length
          = vs.length := by
        rw [foldl_setSlot_length]
        simp
      rw [placeSlots, List.getElem?_eq_none (by omega), List.getElem?_eq_none (by simpa)]
  have hid : ∀ (l : List α), (l.map some).filterMap (fun x => x) = l := by
    intro l
    induction l with
    | nil => rfl
    | cons x l ihl => simp [List.filterMap_cons, ihl]
  simp [collect, hslots, hid]

/-- Ordered Collector with `keep_order = false` unfolds to the completion-order
value list. -/
theorem collect_false_eq (n : Nat) (s : List (Nat × α)) :
    collect false n s = s.map Prod.snd := rfl

/-- Ordered Collector, completion-order side: the emitted list is the list of
completed values strictly in completion order. -/
theorem collect_completion_order_eq (vs : List α) (co : List Nat) (n : Nat) :
    collect false n (streamOf vs co) = co.filterMap (fun j => vs[j]?) := by
  simp [collect, streamOf, List.map_filterMap, Option.map_map, Function.comp]

/-- A successful batch core produces one result per descriptor. -/
theorem runAll_ok_length (fp : Nat → A → Nat) (cacheOn : Bool) (retries : Nat) :
    ∀ (descs : List (PyCallable ε α A × A)) (st : RunState α) (vs : List α),
      (runAll fp cacheOn retries st descs).1 = .ok vs → vs.length = descs.length := by
  intro descs
  induction descs with
  | nil =>
    intro st vs h
    simp [runAll] at h
    simp [← h]
  | cons t ts ih =>
    intro st vs h
    simp only [runAll] at h
    split at h
    · rename_i v1 st1 hro1
      split at h
      · rename_i vs2 st2 hras
        simp at h
        have hlen := ih st1 vs2 (by rw [hras])
        rw [← h]
        simp [hlen]
      · simp at h
    · simp at h

/-- Claim C1: with `keep_order = true`, the batch places each task's result at
the position equal to its submission index — the final value is the slot
sequence `0..N-1` — for every completion order of the backend. -/
theorem c1_keep_order_submission_index (tasks : List (PyCallable ε α A)) (args_ : List A)
    (fp : Nat → A → Nat) (cache_dir : Option Nat) (retries : Nat) (st : RunState α)
    (descs : List (PyCallable ε α A × A)) (vs : List α) (completionOrder : List Nat)
    (hbuild : buildDescriptors tasks args_ = .ok descs)
    (hrun : (runAll fp cache_dir.isSome retries st descs).1 = .ok vs)
    (hperm : completionOrder.Perm (List.range vs.length)) :
    (run_in_parallel tasks args_ fp cache_dir retries true completionOrder st).1 = .ok vs := by
  rcases hra : runAll fp cache_dir.isSome retries st descs with ⟨res, st'⟩
  rw [hra] at hrun
  simp at hrun
  subst hrun
  simp [run_in_parallel, hbuild, hra, collect_keep_order_eq vs completionOrder hperm]

/-- Concrete pure callable used by ordering witnesses: adds one. -/
def addOneC : PyCallable Nat Nat Nat := ⟨2, fun a _ => .ok (a + 1)⟩

/-- Witness for claim C1 at a concrete input: two tasks completing in reverse
order still produce the submission-order result list. -/
theorem c1_witness :
    (run_in_parallel [addOneC] [3, 6] (fun i a => i + a) none 0 true [1, 0]
        ⟨[], fun _ => 0⟩).1 = .ok [4, 7] :=
  c1_keep_order_submission_index [addOneC] [3, 6] (fun i a => i + a) none 0
    ⟨[], fun _ => 0⟩ [(addOneC, 3), (addOneC, 6)] [4, 7] [1, 0] rfl rfl (by decide)

/-- Claim C7: with `keep_order = false`, the batch result lists outcomes
strictly in completion order — position `k` holds the value of the `k`-th task
to complete, and in particular the first task to complete occupies position 0
even when it was submitted later. -/
theorem c7_completion_order (tasks : List (PyCallable ε α A)) (args_ : List A)
    (fp : Nat → A → Nat) (cache_dir : Option Nat) (retries : Nat) (st : RunState α)
    (descs : List (PyCallable ε α A × A)) (vs : List α) (completionOrder : List Nat)
    (hbuild : buildDescriptors tasks args_ = .ok descs)
    (hrun : (runAll fp cache_dir.isSome retries st descs).1 = .ok vs)
    (hco : ∀ j ∈ completionOrder, j < vs.length) :
    (run_in_parallel tasks args_ fp cache_dir retries false completionOrder st).1
      = .ok (completionOrder.filterMap (fun j => vs[j]?)) ∧
    ∀ j co', completionOrder = j :: co' →
      (completionOrder.filterMap (fun j2 => vs[j2]?)).head? = vs[j]? := by
  constructor
  · rcases hra : runAll fp cache_dir.isSome retries st descs with ⟨res, st'⟩
    rw [hra] at hrun
    simp at hrun
    subst hrun
    simp [run_in_parallel, hbuild, hra, collect_completion_order_eq]
  · intro j co' hceq
    subst hceq
    have hj : j < vs.length := hco j (by simp)
    simp [List.filterMap_cons, List.getElem?_eq_getElem hj]

/-- Concrete pure callable used by the completion-order witness: squares. -/
def squareC : PyCallable Nat Nat Nat := ⟨3, fun a _ => .ok (a * a)⟩

/-- Witness for claim C7 at a concrete input: the second-submitted task
completes first and its result occupies position 0. -/
theorem c7_witness :
    (run_in_parallel [squareC, squareC] [10, 20] (fun i a => i + a) none 0 false [1, 0]
        ⟨[], fun _ => 0⟩).1 = .ok [400, 100] := by
  have h := c7_completion_order [squareC, squareC] [10, 20] (fun i a => i + a) none 0
    ⟨[], fun _ => 0⟩ [(squareC, 10), (squareC, 20)] [100, 400] [1, 0] rfl rfl (by decide)
  exact h.1

/-- Claim C8: a batch with a single callable broadcast over `K` argument tuples
returns, on success, a result list of length exactly `K` — one result per
submitted task — in either ordering mode and for any completion order. -/
theorem c8_single_callable_output_length (c : PyCallable ε α A) (args_ : List A)
    (fp : Nat → A → Nat) (cache_dir : Option Nat) (retries : Nat) (keep_order : Bool)
    (completionOrder : List Nat) (st : RunState α) (out : List α)
    (hperm : completionOrder.Perm (List.range args_.length))
    (hrun : (run_in_parallel [c] args_ fp cache_dir retries keep_order completionOrder st).1
      = .ok out) :
    out.length = args_.length := by
  have hbuild : buildDescriptors [c] args_ = .ok (args_.map (fun a => (c, a))) := rfl
  rcases hra : runAll fp cache_dir.isSome retries st (args_.map (fun a => (c, a)))
    with ⟨res, stx⟩
  simp only [run_in_parallel, hbuild, hra] at hrun
  cases res with
  | error e => simp at hrun
  | ok vs =>
    simp at hrun
    have hlen : vs.length = args_.length := by
      have := runAll_ok_length fp cache_dir.isSome retries (args_.map (fun a => (c, a)))
        st vs (by rw [hra])
      simpa using this
    have hperm' : completionOrder.Perm (List.range vs.length) := by
      rw [hlen]
      exact hperm
    have hco : ∀ j ∈ completionOrder, j < vs.length := fun j hj =>
      List.mem_range.mp (hperm'.mem_iff.mp hj)
    cases keep_order with
    | true =>
      rw [← hrun, collect_keep_order_eq vs completionOrder hperm']
      exact hlen
    | false =>
      have hfst := streamOf_map_fst vs completionOrder hco
      have hslen : (streamOf vs completionOrder).length = completionOrder.length := by
        have := congrArg List.length hfst
        simpa using this
      rw [← hrun, collect_false_eq, List.length_map, hslen, hperm.length_eq,
        List.length_range]


/-- Witness for claim C8 at a concrete input: one callable, three argument
tuples, three results. -/
theorem c8_witness :
    ∃ out : List Nat,
      (run_in_parallel [addOneC] [1, 2, 3] (fun i a => i + a) none 0 true [2, 0, 1]
          ⟨[], fun _ => 0⟩).1 = .ok out ∧ out.length = 3 :=
  ⟨[2, 3, 4], rfl,
    c8_single_callable_output_length addOneC [1, 2, 3] (fun i a => i + a) none 0 true
      [2, 0, 1] ⟨[], fun _ => 0⟩ [2, 3, 4] (by decide) rfl⟩

/-- Claim C3: with a cache directory configured, running the same single-task
batch twice executes the underlying callable exactly once in total — the first
run invokes it once and writes the result through, while the second run hits
the cache on the identical fingerprint, returns the same result, performs no
additional invocation, and leaves the whole state (cache and invocation
counter) unchanged. -/
theorem c3_cache_idempotence (c : PyCallable ε α A) (a : A) (v : α)
    (fp : Nat → A → Nat) (cache_dir : Option Nat) (retries : Nat)
    (hcd : cache_dir.isSome = true) (hb : c.behavior a 0 = .ok v) :
    (run_in_parallel [c] [a] fp cache_dir retries true [0] ⟨[], fun _ => 0⟩).1 = .ok [v] ∧
    ((run_in_parallel [c] [a] fp cache_dir retries true [0] ⟨[], fun _ => 0⟩).2).calls c.id
      = 1 ∧
    run_in_parallel [c] [a] fp cache_dir retries true [0]
        (run_in_parallel [c] [a] fp cache_dir retries true [0] ⟨[], fun _ => 0⟩).2
      = (.ok [v], (run_in_parallel [c] [a] fp cache_dir retries true [0] ⟨[], fun _ => 0⟩).2) := by
  have hretry : retryLoop (c.behavior a) 0 retries = (.ok v, 1) :=
    retryLoop_first_ok (c.behavior a) v 0 retries hb
  have hrun1 : run_in_parallel [c] [a] fp cache_dir retries true [0] ⟨[], fun _ => 0⟩
      = (.ok [v], ⟨[(fp c.id a, v)], Function.update (fun _ => 0) c.id 1⟩) := by
    simp [run_in_parallel, buildDescriptors, runAll, runOne, hcd, cacheLookup, hretry,
      collect, placeSlots, setSlot, streamOf]
  have hrun2 : run_in_parallel [c] [a] fp cache_dir retries true [0]
      (⟨[(fp c.id a, v)], Function.update (fun _ => 0) c.id 1⟩ : RunState α)
      = (.ok [v], ⟨[(fp c.id a, v)], Function.update (fun _ => 0) c.id 1⟩) := by
    simp [run_in_parallel, buildDescriptors, runAll, runOne, hcd, cacheLookup,
      List.find?, collect, placeSlots, setSlot, streamOf]
  refine ⟨by rw [hrun1], by rw [hrun1]; simp, ?_⟩
  rw [hrun1]
  exact hrun2

/-- Concrete cacheable callable used by the C3 witness. -/
def cachedC : PyCallable Nat Nat Nat := ⟨4, fun a _ => .ok (a * 10)⟩

/-- Witness for claim C3 at a concrete input: a second run over a warm cache
returns the first run's value with the state unchanged. -/
theorem c3_witness :
    (run_in_parallel [cachedC] [5] (fun i a => i + a) (some 0) 0 true [0]
        ⟨[], fun _ => 0⟩).1 = .ok [50] ∧
    ((run_in_parallel [cachedC] [5] (fun i a => i + a) (some 0) 0 true [0]
        ⟨[], fun _ => 0⟩).2).calls cachedC.id = 1 ∧
    run_in_parallel [cachedC] [5] (fun i a => i + a) (some 0) 0 true [0]
        (run_in_parallel [cachedC] [5] (fun i a => i + a) (some 0) 0 true [0]
          ⟨[], fun _ => 0⟩).2
      = (.ok [50],
          (run_in_parallel [cachedC] [5] (fun i a => i + a) (some 0) 0 true [0]
            ⟨[], fun _ => 0⟩).2) :=
  c3_cache_idempotence cachedC 5 50 (fun i a => i + a) (some 0) 0 rfl rfl

/-- Claim C5 (amended): two callables with a single argument tuple raise the
input-shape error carrying both lengths, synchronously at batch setup with the
state untouched, so no callable executes; and in general the builder raises the
shape error exactly when the callables sequence does not have length one and
the two sequence lengths differ — the argument-tuples side need not have
length greater than one. -/
theorem c5_input_shape_error (c₁ c₂ : PyCallable ε α A) (a : A) (fp : Nat → A → Nat)
    (cache_dir : Option Nat) (retries : Nat) (keep_order : Bool)
    (completionOrder : List Nat) (st : RunState α) :
    run_in_parallel [c₁, c₂] [a] fp cache_dir retries keep_order completionOrder st
      = (.error (.inputShape 2 1), st) ∧
    ∀ (fs : List (PyCallable ε α A)) (as : List A),
      (∃ n m, buildDescriptors fs as = .error (n, m)) ↔
        (fs.length ≠ 1 ∧ fs.length ≠ as.length) := by
  refine ⟨rfl, ?_⟩
  intro fs as
  have hnil : buildDescriptors ([] : List (PyCallable ε α A)) as
      = if 0 = as.length then .ok [] else .error (0, as.length) := rfl
  rcases fs with _ | ⟨f, _ | ⟨g, fs'⟩⟩
  · constructor
    · rintro ⟨n, m, h⟩
      rw [hnil] at h
      split_ifs at h with h0
      exact ⟨by simp only [List.length_nil]; omega, by simp only [List.length_nil]; exact h0⟩
    · rintro ⟨h1, h2⟩
      refine ⟨0, as.length, ?_⟩
      rw [hnil, if_neg (by simpa using h2)]
  · constructor
    · rintro ⟨n, m, h⟩
      simp [buildDescriptors] at h
    · rintro ⟨h1, _⟩
      exact absurd rfl h1
  · have hmulti : buildDescriptors (f :: g :: fs') as
        = if (f :: g :: fs').length = as.length then .ok ((f :: g :: fs').zip as)
          else .error ((f :: g :: fs').length, as.length) := rfl
    constructor
    · rintro ⟨n, m, h⟩
      rw [hmulti] at h
      split_ifs at h with h0
      exact ⟨by simp only [List.length_cons]; omega, h0⟩
    · rintro ⟨h1, h2⟩
      refine ⟨(f :: g :: fs').length, as.length, ?_⟩
      rw [hmulti, if_neg h2]

/-- Counterexample for claim C5 as stated: with two callables and one argument
tuple the builder does raise the input-shape error, yet the spec's stated
trigger condition — both sequences of length greater than one and differing —
fails there, because the argument side has length exactly one. -/
theorem c5_counterexample :
    buildDescriptors [alwaysFailC, alwaysFailC] [(5 : Nat)] = .error (2, 1) ∧
    ¬ specShapeErrorTrigger 2 1 :=
  ⟨rfl, fun h => absurd h.2.1 (by decide)⟩

/-- Elementwise description of `List.zip`, used for the client embedding. -/
theorem zip_getElem?_of {β γ : Type} (l₁ : List β) :
    ∀ (l₂ : List γ) (i : Nat) (x : β) (y : γ),
      l₁[i]? = some x → l₂[i]? = some y → (l₁.zip l₂)[i]? = some (x, y) := by
  induction l₁ with
  | nil => intro l₂ i x y h _; simp at h
  | cons a l₁ ih =>
    intro l₂ i x y hx hy
    cases l₂ with
    | nil => simp at hy
    | cons b l₂ =>
      cases i with
      | zero =>
        simp at hx hy
        simp [List.zip_cons_cons, hx, hy]
      | succ i =>
        simp at hx hy
        simp only [List.zip_cons_cons, List.getElem?_cons_succ]
        exact ih l₂ i x y hx hy

/-- Claim C9: in `Client.chat_completion`, a single string `model` is never
broadcast to all messages — a `str` satisfies `isinstance(model, Iterable)`, so
the string itself is zipped character-by-character with `messages`: the number
of submitted tasks equals `min (len messages) (len model)` and the `i`-th task
receives the single character `model[i]` as its model argument instead of the
full model name. -/
theorem c9_string_model_zipped_char_by_char (messages : List μ) (s : String) :
    (ModelArg.str s).isIterable = true ∧
    (chatCompletionArgs messages (ModelArg.str s)).length
      = min messages.length s.length ∧
    ∀ i (him : i < messages.length) (hs : i < s.data.length),
      (chatCompletionArgs messages (ModelArg.str s))[i]?
        = some (messages[i], String.mk [s.data[i]]) := by
  refine ⟨rfl, ?_, ?_⟩
  · show (messages.zip (s.data.map fun ch => String.mk [ch])).length = _
    rw [List.length_zip, List.length_map]
    rfl
  · intro i him his
    have hm : (chatCompletionModels messages (ModelArg.str s))[i]?
        = some (String.mk [s.data[i]]) := by
      show (s.data.map (fun ch => String.mk [ch]))[i]? = _
      rw [List.getElem?_map, List.getElem?_eq_getElem his]
      rfl
    exact zip_getElem?_of messages _ i _ _ (List.getElem?_eq_getElem him) hm

/-- Witness for claim C9 at a concrete input: two messages and the model string
made of the characters g, p, t; task 0 receives the single character g as its
model, not the full string. -/
theorem c9_witness :
    (chatCompletionArgs [10, 20] (ModelArg.str (String.mk ['g', 'p', 't'])))[0]?
      = some ((10 : Nat), String.mk ['g']) :=
  (c9_string_model_zipped_char_by_char [10, 20] (String.mk ['g', 'p', 't'])).2.2 0
    (by decide) (by decide)

/-- Any non-empty keyword mapping fails Python call binding against
`make_task`'s parameter list: a key equal to `msg` or `model` duplicates a
positionally bound parameter, and any other key is an unexpected keyword for a
callee without a `**kwargs` catch-all. -/
theorem callRaisesTypeError_makeTask (kwargKeys : List String) (hk : kwargKeys ≠ []) :
    callRaisesTypeError makeTaskParams 2 makeTaskHasVarKeyword kwargKeys = true := by
  cases kwargKeys with
  | nil => exact absurd rfl hk
  | cons k ks =>
    have htake : makeTaskParams.take 2 = makeTaskParams := rfl
    simp only [callRaisesTypeError, htake, makeTaskHasVarKeyword, Bool.not_false,
      Bool.true_and]
    cases hc : makeTaskParams.contains k with
    | true => simp only [List.any_cons, hc, Bool.true_or]
    | false =>
      simp only [List.any_cons, hc, Bool.not_false, Bool.false_or, Bool.true_or,
        Bool.or_true]

/-- Claim C10: every `Client.chat_completion` call with a non-empty `**kwargs`
mapping makes each task invocation raise a `TypeError` — the same mapping is
appended to `kwargs_` once per task and then passed as keyword arguments to
`make_task`, which declares only the two parameters `msg` and `model` and no
keyword catch-all. -/
theorem c10_kwargs_type_error (messages : List μ) (model : ModelArg)
    (kwargKeys : List String) (hk : kwargKeys ≠ []) :
    (∀ taskKw ∈ chatCompletionKwargs messages model kwargKeys, taskKw = kwargKeys) ∧
    (chatCompletionKwargs messages model kwargKeys).all
        (fun taskKw => callRaisesTypeError makeTaskParams 2 makeTaskHasVarKeyword taskKw)
      = true := by
  constructor
  · intro taskKw hmem
    rcases List.mem_map.mp hmem with ⟨_, _, h⟩
    exact h.symm
  · rw [List.all_eq_true]
    intro x hx
    rcases List.mem_map.mp hx with ⟨_, _, h⟩
    rw [← h]
    exact callRaisesTypeError_makeTask kwargKeys hk

/-- Witness for claim C10 at a concrete input: one extra keyword argument makes
every task's call binding raise a `TypeError`. -/
theorem c10_witness :
    (chatCompletionKwargs [10, 20] (ModelArg.str (String.mk ['m'])) [String.mk ['t']]).all
        (fun taskKw => callRaisesTypeError makeTaskParams 2 makeTaskHasVarKeyword taskKw)
      = true :=
  (c10_kwargs_type_error [10, 20] (ModelArg.str (String.mk ['m']))
    [String.mk ['t']] (by simp)).2

end Scikufu
